import Mathlib

/-!
Shallow embedding of the YT-Chapter-Generator core
(src/app/api/process/route.ts, src/lib/jobStore.ts, src/lib/storage.ts).

JavaScript numbers are modelled as `ℚ` (all arithmetic performed by the
relevant code paths is exact on rationals: additions, subtractions,
divisions by 60/100, floors and roundings).  Strings are Lean `String`s;
`Date` values are opaque strings passed explicitly as a `now` parameter.
-/

namespace YT

/-- One time-stamped transcript unit, as produced by the RapidAPI mapping in
`getYouTubeTranscript` (route.ts): `{ text, start, end }`.  The source field
`end` is a Lean keyword, so it is called `endTime` here. -/
structure TranscriptSegment where
  text : String
  start : ℚ
  endTime : ℚ
deriving DecidableEq, Repr

/-- Accumulator of the topic segmentation in `generateChapters` (route.ts
line 288): `{ start, texts, segments }`. -/
structure TopicGroup where
  start : ℚ
  texts : List String
  segments : List TranscriptSegment
deriving DecidableEq, Repr

/-- Default `TopicGroup` used only as the `getD` fallback in statements. -/
def defaultGroup : TopicGroup := { start := 0, texts := [], segments := [] }

/-- JavaScript `Math.trunc` on a rational (round toward zero). -/
def jsTrunc (q : ℚ) : ℤ := if 0 ≤ q then ⌊q⌋ else ⌈q⌉

/-- JavaScript `%` on rationals: `a - b * trunc(a / b)`.  Models the source's
`seconds % 60`, which is only ever applied to non-negative values. -/
def jsMod (a b : ℚ) : ℚ := a - b * (jsTrunc (a / b) : ℚ)

/-- JavaScript `Math.round`: `⌊x + 1/2⌋` (round half up, also for negatives). -/
def jsRound (q : ℚ) : ℤ := ⌊q + 1 / 2⌋

/-- JavaScript `String.prototype.padStart(2, "0")`. -/
def padStart2 (s : String) : String :=
  if 2 ≤ s.length then s else String.mk (List.replicate (2 - s.length) '0') ++ s

/-- `formatTime` (route.ts line 424): `minutes = Math.floor(seconds / 60)`,
`remainingSeconds = Math.floor(seconds % 60)`, both zero-padded to width 2 and
joined with a colon. -/
def formatTime (seconds : ℚ) : String :=
  let minutes : ℤ := ⌊seconds / 60⌋
  let remainingSeconds : ℤ := ⌊jsMod seconds 60⌋
  padStart2 (toString minutes) ++ ":" ++ padStart2 (toString remainingSeconds)

/-- Modelled from the spec's wording of §4.1 for the refinement claim about
`formatTime`: minutes are `floor(s/60)`, seconds are `floor(s) mod 60`
(mathematical mod), both zero-padded to width 2, joined with a colon. -/
def formatTimeSpec (seconds : ℚ) : String :=
  padStart2 (toString (⌊seconds / 60⌋ : ℤ)) ++ ":" ++
    padStart2 (toString ((⌊seconds⌋ : ℤ) % 60))

/-- Chapter count band `{ min, max }` (route.ts `determineChapterCount`). -/
structure ChapterCountBand where
  min : ℕ
  max : ℕ
deriving DecidableEq, Repr

/-- `determineChapterCount` (route.ts line 246): first matching row of the
breakpoint table over `durationInSeconds / 60`. -/
def determineChapterCount (durationInSeconds : ℚ) : ChapterCountBand :=
  let durationInMinutes := durationInSeconds / 60
  if durationInMinutes ≤ 15 then { min := 3, max := 5 }
  else if durationInMinutes ≤ 30 then { min := 5, max := 8 }
  else if durationInMinutes ≤ 60 then { min := 8, max := 12 }
  else if durationInMinutes ≤ 120 then { min := 12, max := 20 }
  else { min := 15, max := 30 }

/-- All suffixes of a character list (longest first), used to express
substring occurrence. -/
def suffixesOf : List Char → List (List Char)
  | [] => [[]]
  | c :: cs => (c :: cs) :: suffixesOf cs

/-- `pat` occurs as a contiguous substring of `hay`. -/
def charsContain (hay pat : List Char) : Bool :=
  (suffixesOf hay).any (fun t => pat.isPrefixOf t)

/-- The topic-transition cue literals of the regex in `generateChapters`
(route.ts line 303).  The regex is a plain alternation of these literals, so
it matches a text iff one of them occurs as a substring. -/
def topicCueWords : List String :=
  ["では", "それでは", "次に", "ところで", "さて", "ということで",
   "まとめ", "結論", "重要な", "ポイント", "注意点", "最後に"]

/-- `hasTopicChange` (route.ts line 303): the cue regex tests the segment
text. -/
def hasTopicChange (text : String) : Bool :=
  topicCueWords.any (fun w => charsContain text.data w.data)

/-- The segmentation loop of `generateChapters` (route.ts lines 295-327):
`prev` is `segments[i-1]`, `cur` the group being accumulated, and the list
argument the remaining segments.  A gap `> 5` seconds or a cue match closes
the current group (the source pushes it only if its `texts` is non-empty,
which is an invariant) and seeds a new one from the current segment;
otherwise text and segment are appended.  The final group is pushed at end
of input under the same non-emptiness test. -/
def segLoop : TranscriptSegment → TopicGroup → List TranscriptSegment → List TopicGroup
  | _, cur, [] => if 0 < cur.texts.length then [cur] else []
  | prev, cur, seg :: rest =>
    if 5 < seg.start - prev.endTime ∨ hasTopicChange seg.text then
      (if 0 < cur.texts.length then [cur] else []) ++
        segLoop seg { start := seg.start, texts := [seg.text], segments := [seg] } rest
    else
      segLoop seg
        { cur with texts := cur.texts ++ [seg.text], segments := cur.segments ++ [seg] }
        rest

/-- The Topic Segmenter of `generateChapters` (route.ts lines 288-327),
seeded with a group holding `segments[0]`.  The empty case is unreachable in
the source: `generateChapters` throws on an empty segment list before the
loop (route.ts line 276). -/
def segmentGroups : List TranscriptSegment → List TopicGroup
  | [] => []
  | s :: rest => segLoop s { start := s.start, texts := [s.text], segments := [s] } rest

/-- Start-time gaps between adjacent groups: `group[i+1].start - group[i].start`
for `i` in `[0, len-2]` (route.ts line 336). -/
def gapsOf : List TopicGroup → List ℚ
  | a :: b :: rest => (b.start - a.start) :: gapsOf (b :: rest)
  | _ => []

/-- The scan of route.ts lines 331-341: `minDuration` starts at `Infinity`
(modelled by `none`, which every finite gap beats) and `mergeIndex` at `0`;
a gap updates the pair only when strictly smaller, so the first minimum
wins.  `cur` is the index of the head of the remaining gap list. -/
def idxOfFirstMinAux : List ℚ → Option ℚ → Nat → Nat → Nat
  | [], _, bestIdx, _ => bestIdx
  | x :: xs, none, _, cur => idxOfFirstMinAux xs (some x) cur (cur + 1)
  | x :: xs, some b, bestIdx, cur =>
    if x < b then idxOfFirstMinAux xs (some x) cur (cur + 1)
    else idxOfFirstMinAux xs (some b) bestIdx (cur + 1)

/-- `mergeIndex` selected by one Reducer iteration (route.ts lines 331-341). -/
def findMergeIndex (gs : List TopicGroup) : Nat :=
  idxOfFirstMinAux (gapsOf gs) none 0 0

/-- One Reducer merge (route.ts lines 344-350): group `i+1`'s texts and
segments are concatenated onto group `i`'s (keeping `i`'s `start`) and group
`i+1` is spliced out.  The fallthrough case is unreachable under the loop
guard: the source would dereference a missing element there. -/
def mergeAt (gs : List TopicGroup) (i : Nat) : List TopicGroup :=
  match gs[i]?, gs[i + 1]? with
  | some a, some b =>
    gs.take i ++
      [{ start := a.start, texts := a.texts ++ b.texts, segments := a.segments ++ b.segments }] ++
      gs.drop (i + 2)
  | _, _ => gs

/-- The Reducer's `while (topicGroups.length > maxChapters)` loop (route.ts
lines 330-351), embedded with explicit fuel.  Each iteration removes exactly
one group, so `gs.length` steps always reach the loop's fixpoint; the extra
`2 ≤ gs.length` guard makes the step total (with fewer than two groups the
source's body would dereference a missing element, which can only be reached
when `maxChapters = 0`). -/
def reduceLoop : Nat → List TopicGroup → Nat → List TopicGroup
  | 0, gs, _ => gs
  | fuel + 1, gs, maxChapters =>
    if maxChapters < gs.length ∧ 2 ≤ gs.length then
      reduceLoop fuel (mergeAt gs (findMergeIndex gs)) maxChapters
    else gs

/-- The Group Reducer (route.ts lines 330-351). -/
def reduceGroups (gs : List TopicGroup) (maxChapters : Nat) : List TopicGroup :=
  reduceLoop gs.length gs maxChapters

/-- One digest line of the Label Request Builder (route.ts lines 356-362):
summary = texts joined by spaces, truncated to 100 characters, with an
ellipsis appended; prefix = `formatTime` of the group start rounded to two
decimals. -/
def groupLine (g : TopicGroup) : String :=
  let summary := (String.intercalate " " g.texts).take 100 ++ "..."
  let startTime := (jsRound (g.start * 100) : ℚ) / 100
  formatTime startTime ++ " " ++ summary

/-- `formattedSegments` (route.ts lines 356-362): digest lines joined by
newlines. -/
def formattedSegments (groups : List TopicGroup) : String :=
  String.intercalate "\n" (groups.map groupLine)

/-- Error taxonomy of the label-response parsing step. -/
inductive LabelError where
  | emptyLabelResponse
deriving DecidableEq, Repr

/-- The output-parsing step of `generateChapters` (route.ts lines 402-408):
`completion.choices[0].message.content` is `string | null`; `if (!result)`
throws on `null` and on the empty string (both falsy), and any other
response is returned verbatim. -/
def parseOracleResponse (content : Option String) : Except LabelError String :=
  match content with
  | none => Except.error LabelError.emptyLabelResponse
  | some s => if s = "" then Except.error LabelError.emptyLabelResponse else Except.ok s

/-- `ProcessStatus` (src/lib/types.ts). -/
inductive ProcessStatus where
  | idle
  | waiting
  | downloading
  | transcribing
  | generating
  | done
  | error
deriving DecidableEq, Repr

/-- `JobStatus` (src/lib/types.ts).  `progress` is a TS `number`; the store
only ever writes the integers 0, 80 and 100, so `ℤ` suffices.  Optional TS
fields are `Option`s; timestamps are opaque ISO strings. -/
structure JobStatus where
  jobId : String
  status : ProcessStatus
  progress : ℤ
  result : Option String
  error : Option String
  createdAt : Option String
  updatedAt : Option String
  completedAt : Option String
deriving DecidableEq, Repr

/-- `Partial<JobStatus>`: a field is `some` exactly when the update object
carries that key. -/
structure PartialJobStatus where
  jobId : Option String := none
  status : Option ProcessStatus := none
  progress : Option ℤ := none
  result : Option String := none
  error : Option String := none
  createdAt : Option String := none
  updatedAt : Option String := none
  completedAt : Option String := none
deriving DecidableEq, Repr

/-- JavaScript object spread `{...cur, ...p}`: keys present in `p` override. -/
def mergePatch (cur : JobStatus) (p : PartialJobStatus) : JobStatus :=
  { jobId := p.jobId.getD cur.jobId
    status := p.status.getD cur.status
    progress := p.progress.getD cur.progress
    result := p.result.or cur.result
    error := p.error.or cur.error
    createdAt := p.createdAt.or cur.createdAt
    updatedAt := p.updatedAt.or cur.updatedAt
    completedAt := p.completedAt.or cur.completedAt }

/-- The store's `jobs : Map<string, JobStatus>` (src/lib/jobStore.ts). -/
def JobsMap : Type := String → Option JobStatus

/-- `Map.set`. -/
def JobsMap.set (m : JobsMap) (k : String) (v : JobStatus) : JobsMap :=
  fun k2 => if k2 = k then some v else m k2

/-- The default record synthesized by `updateJobStatus` for an unknown id
(jobStore.ts lines 34-39). -/
def defaultJobStatus (jobId now : String) : JobStatus :=
  { jobId := jobId, status := ProcessStatus.waiting, progress := 0,
    result := none, error := none,
    createdAt := some now, updatedAt := none, completedAt := none }

/-- `JobStore.updateJobStatus` (jobStore.ts lines 32-52): fetch-or-default,
shallow-merge the partial over it, stamp `updatedAt`, store and return the
merged record.  `Date` is passed explicitly as `now`. -/
def updateJobStatus (m : JobsMap) (jobId : String) (p : PartialJobStatus)
    (now : String) : JobStatus × JobsMap :=
  let currentStatus := (m jobId).getD (defaultJobStatus jobId now)
  let updatedStatus := { mergePatch currentStatus p with updatedAt := some now }
  (updatedStatus, m.set jobId updatedStatus)

/-- Failure of the completion-style store operations. -/
inductive JobStoreError where
  | jobNotFound (jobId : String)
deriving DecidableEq, Repr

/-- `JobStore.storeJobResult` (jobStore.ts lines 55-74): throws when the id
has no record (the map is returned unchanged), otherwise sets
`status = done, progress = 100, result, completedAt`. -/
def storeJobResult (m : JobsMap) (jobId result now : String) :
    Except JobStoreError JobStatus × JobsMap :=
  match m jobId with
  | none => (Except.error (JobStoreError.jobNotFound jobId), m)
  | some status =>
    let updatedStatus :=
      { status with status := ProcessStatus.done, progress := 100,
                    result := some result, completedAt := some now }
    (Except.ok updatedStatus, m.set jobId updatedStatus)

/-- `JobStore.markJobAsError` (jobStore.ts lines 77-95): throws when the id
has no record (the map is returned unchanged), otherwise sets
`status = error, error, completedAt` and keeps every other field. -/
def markJobAsError (m : JobsMap) (jobId errorMsg now : String) :
    Except JobStoreError JobStatus × JobsMap :=
  match m jobId with
  | none => (Except.error (JobStoreError.jobNotFound jobId), m)
  | some status =>
    let updatedStatus :=
      { status with status := ProcessStatus.error, error := some errorMsg,
                    completedAt := some now }
    (Except.ok updatedStatus, m.set jobId updatedStatus)

/-- JavaScript `String.prototype.endsWith`, expressed on character lists
(Lean's builtin `String.endsWith` is byte-based and not reducible). -/
def strEndsWith (s suffix : String) : Bool :=
  List.isSuffixOf suffix.data s.data

/-- One file of the `.data` directory of `FileStorage` (src/lib/storage.ts):
name, filesystem mtime in milliseconds, and the stored record. -/
structure StoredFile where
  name : String
  mtimeMs : ℤ
  job : JobStatus
deriving DecidableEq, Repr

/-- 24 hours in milliseconds (storage.ts line 83). -/
def oneDayMs : ℤ := 24 * 60 * 60 * 1000

/-- `FileStorage.cleanupOldJobs` (storage.ts lines 78-101): among the
`.json` files, those with `now - mtimeMs > oneDayMs` are unlinked; every
other file survives. -/
def cleanupOldJobs (now : ℤ) (files : List StoredFile) : List StoredFile :=
  files.filter (fun f =>
    if strEndsWith f.name ".json" then decide (now - f.mtimeMs ≤ oneDayMs) else true)

/-- `FileStorage.getAllJobs` (storage.ts lines 54-72): the records of the
`.json` files. -/
def getAllJobs (files : List StoredFile) : List JobStatus :=
  (files.filter (fun f => strEndsWith f.name ".json")).map StoredFile.job

/-- An apostrophe, written by code point to keep source lines plain. -/
def apos : String := String.mk [Char.ofNat 39]

/-- Second segment text of the spec's end-to-end scenario. -/
def scenarioText2 : String := "Now let" ++ apos ++ "s move on to the next topic"

/-- The spec's end-to-end scenario transcript (§8). -/
def scenarioSegs : List TranscriptSegment :=
  [{ text := "Hello everyone", start := 0, endTime := 2 },
   { text := scenarioText2, start := 8, endTime := 12 },
   { text := "In conclusion, thanks", start := 13, endTime := 15 }]

/-- Concrete transcript used to instantiate the segmenter theorem. -/
def c1Segs : List TranscriptSegment :=
  [{ text := "intro", start := 0, endTime := 2 },
   { text := "middle", start := 9, endTime := 11 },
   { text := "closing", start := 11, endTime := 13 }]

/-- Concrete groups used to instantiate the reducer bound theorem. -/
def c3Groups : List TopicGroup :=
  [{ start := 0, texts := ["x"], segments := [] },
   { start := 4, texts := ["y"], segments := [] },
   { start := 20, texts := ["z"], segments := [] }]

/-- Concrete groups used to instantiate the merge-selection theorem: gaps
are 10 and 2, so the pair (1,2) must be merged. -/
def c4Groups : List TopicGroup :=
  [{ start := 0, texts := ["a"], segments := [] },
   { start := 10, texts := ["b"], segments := [] },
   { start := 12, texts := ["c"], segments := [] }]

/-- The empty job map. -/
def emptyJobsMap : JobsMap := fun _ => none

/-- Concrete partial update used to instantiate the store theorems. -/
def c6Patch : PartialJobStatus :=
  { status := some ProcessStatus.generating, progress := some 80 }

/-- Concrete pre-existing record used to instantiate the frame theorem. -/
def c10Record : JobStatus :=
  { jobId := "job-a", status := ProcessStatus.transcribing, progress := 55,
    result := none, error := none,
    createdAt := some "t0", updatedAt := some "t1", completedAt := none }

/-- A job map holding exactly `c10Record` under "job-a". -/
def c10Map : JobsMap := fun k => if k = "job-a" then some c10Record else none

/-- A job file last modified 25 hours before `c9Now`. -/
def c9FileOld : StoredFile :=
  { name := "job-old.json", mtimeMs := 0, job := defaultJobStatus "job-old" "t0" }

/-- A job file last modified 1 hour before `c9Now`. -/
def c9FileNew : StoredFile :=
  { name := "job-new.json", mtimeMs := 86400000,
    job := defaultJobStatus "job-new" "t1" }

/-- Eviction instant: 25 hours after epoch 0. -/
def c9Now : ℤ := 90000000

/-- Storage contents for the eviction scenario. -/
def c9Files : List StoredFile := [c9FileOld, c9FileNew]

section
attribute [local semireducible] Rat.add Rat.sub Rat.mul Rat.inv
set_option maxRecDepth 8000

/-- Invariant of the segmentation loop: provided the accumulated group is
non-empty, the emitted groups' segment lists concatenate to the accumulated
segments followed by the remaining input, and every emitted group is
non-empty. -/
theorem segLoop_partition (rest : List TranscriptSegment) :
    ∀ (prev : TranscriptSegment) (cur : TopicGroup), cur.texts ≠ [] → cur.segments ≠ [] →
      ((segLoop prev cur rest).map TopicGroup.segments).flatten = cur.segments ++ rest ∧
      ∀ g ∈ segLoop prev cur rest, g.segments ≠ [] := by
  induction rest with
  | nil =>
    intro prev cur ht hs
    have hlen : 0 < cur.texts.length := List.length_pos.mpr ht
    refine ⟨by simp [segLoop, hlen], ?_⟩
    intro g hg
    simp [segLoop, hlen] at hg
    simpa [hg] using hs
  | cons seg rest ih =>
    intro prev cur ht hs
    by_cases hc : 5 < seg.start - prev.endTime ∨ hasTopicChange seg.text
    · have hlen : 0 < cur.texts.length := List.length_pos.mpr ht
      obtain ⟨ih1, ih2⟩ := ih seg
        { start := seg.start, texts := [seg.text], segments := [seg] } (by simp) (by simp)
      constructor
      · simp only [segLoop, if_pos hc, if_pos hlen]
        simp [ih1]
      · intro g hg
        simp only [segLoop, if_pos hc, if_pos hlen] at hg
        rcases List.mem_append.mp hg with hg1 | hg2
        · simp at hg1
          simpa [hg1] using hs
        · exact ih2 g hg2
    · obtain ⟨ih1, ih2⟩ := ih seg
        { cur with texts := cur.texts ++ [seg.text],
                   segments := cur.segments ++ [seg] } (by simp) (by simp)
      constructor
      · simp only [segLoop, if_neg hc]
        rw [ih1]
        simp
      · intro g hg
        simp only [segLoop, if_neg hc] at hg
        exact ih2 g hg

/-- C1: on every non-empty transcript, the Topic Segmenter's groups'
segment lists, concatenated in order, are exactly the input sequence (no
segment lost, duplicated or reordered), and every group is non-empty. -/
theorem segmentGroups_reconstructs_input (segs : List TranscriptSegment) (h : segs ≠ []) :
    ((segmentGroups segs).map TopicGroup.segments).flatten = segs ∧
    ∀ g ∈ segmentGroups segs, g.segments ≠ [] := by
  match segs with
  | [] => exact absurd rfl h
  | s :: rest =>
    obtain ⟨h1, h2⟩ := segLoop_partition rest s
      { start := s.start, texts := [s.text], segments := [s] } (by simp) (by simp)
    exact ⟨by simpa [segmentGroups] using h1, by simpa [segmentGroups] using h2⟩

/-- C1 witness: the partition property evaluated on a concrete 3-segment
transcript. -/
theorem segmentGroups_reconstructs_input_witness :
    ((segmentGroups c1Segs).map TopicGroup.segments).flatten = c1Segs :=
  (segmentGroups_reconstructs_input c1Segs (by decide)).1

/-- C2 counterexample: on the spec's end-to-end transcript the Segmenter
yields 2 groups, not 3 — the third segment's English cue phrase does not
match the source's Japanese cue regex, so only the 6-second gap before
segment 2 splits. -/
theorem scenario_counterexample :
    (segmentGroups scenarioSegs).length = 2 ∧ (segmentGroups scenarioSegs).length ≠ 3 := by
  exact ⟨by decide, by decide⟩

/-- C2 amended: the scenario transcript yields 2 groups (the 6-second gap
splits before segment 2; no cue split occurs before segment 3), the Reducer
with max = 5 performs no merge, and the digest has 2 lines prefixed 00:00
and 00:08. -/
theorem scenario_pipeline_digest :
    (segmentGroups scenarioSegs).length = 2 ∧
    reduceGroups (segmentGroups scenarioSegs) 5 = segmentGroups scenarioSegs ∧
    formattedSegments (reduceGroups (segmentGroups scenarioSegs) 5) =
      "00:00 Hello everyone...\n00:08 " ++ scenarioText2 ++ " In conclusion, thanks..." := by
  exact ⟨by decide, by decide, by decide⟩

/-- C5: `determineChapterCount` maps a total duration in seconds through the
breakpoint table row by row, boundaries inclusive of the upper value: bands
are (3,5) up to 900 s, (5,8) up to 1800 s, (8,12) up to 3600 s, (12,20) up
to 7200 s, and (15,30) beyond. -/
theorem determineChapterCount_bands (d : ℚ) :
    (d ≤ 900 → determineChapterCount d = { min := 3, max := 5 }) ∧
    (900 < d → d ≤ 1800 → determineChapterCount d = { min := 5, max := 8 }) ∧
    (1800 < d → d ≤ 3600 → determineChapterCount d = { min := 8, max := 12 }) ∧
    (3600 < d → d ≤ 7200 → determineChapterCount d = { min := 12, max := 20 }) ∧
    (7200 < d → determineChapterCount d = { min := 15, max := 30 }) := by
  have h60 : (0 : ℚ) < 60 := by norm_num
  refine ⟨fun h => ?_, fun ha hb => ?_, fun ha hb => ?_, fun ha hb => ?_, fun ha => ?_⟩
  · have h1 : d / 60 ≤ 15 := (div_le_iff₀ h60).mpr (by linarith)
    simp [determineChapterCount, h1]
  · have h1 : ¬(d / 60 ≤ 15) := fun hc => by
      have := (div_le_iff₀ h60).mp hc; linarith
    have h2 : d / 60 ≤ 30 := (div_le_iff₀ h60).mpr (by linarith)
    simp [determineChapterCount, h1, h2]
  · have h1 : ¬(d / 60 ≤ 15) := fun hc => by
      have := (div_le_iff₀ h60).mp hc; linarith
    have h2 : ¬(d / 60 ≤ 30) := fun hc => by
      have := (div_le_iff₀ h60).mp hc; linarith
    have h3 : d / 60 ≤ 60 := (div_le_iff₀ h60).mpr (by linarith)
    simp [determineChapterCount, h1, h2, h3]
  · have h1 : ¬(d / 60 ≤ 15) := fun hc => by
      have := (div_le_iff₀ h60).mp hc; linarith
    have h2 : ¬(d / 60 ≤ 30) := fun hc => by
      have := (div_le_iff₀ h60).mp hc; linarith
    have h3 : ¬(d / 60 ≤ 60) := fun hc => by
      have := (div_le_iff₀ h60).mp hc; linarith
    have h4 : d / 60 ≤ 120 := (div_le_iff₀ h60).mpr (by linarith)
    simp [determineChapterCount, h1, h2, h3, h4]
  · have h1 : ¬(d / 60 ≤ 15) := fun hc => by
      have := (div_le_iff₀ h60).mp hc; linarith
    have h2 : ¬(d / 60 ≤ 30) := fun hc => by
      have := (div_le_iff₀ h60).mp hc; linarith
    have h3 : ¬(d / 60 ≤ 60) := fun hc => by
      have := (div_le_iff₀ h60).mp hc; linarith
    have h4 : ¬(d / 60 ≤ 120) := fun hc => by
      have := (div_le_iff₀ h60).mp hc; linarith
    simp [determineChapterCount, h1, h2, h3, h4]

/-- C5 witness: the four boundary durations of the claim. -/
theorem determineChapterCount_bands_witness :
    determineChapterCount 900 = { min := 3, max := 5 } ∧
    determineChapterCount 901 = { min := 5, max := 8 } ∧
    determineChapterCount 7200 = { min := 12, max := 20 } ∧
    determineChapterCount 7201 = { min := 15, max := 30 } :=
  ⟨(determineChapterCount_bands 900).1 (by norm_num),
   (determineChapterCount_bands 901).2.1 (by norm_num) (by norm_num),
   (determineChapterCount_bands 7200).2.2.2.1 (by norm_num) (by norm_num),
   (determineChapterCount_bands 7201).2.2.2.2 (by norm_num)⟩

/-- C7: the label-response parsing step returns any non-empty oracle
response verbatim (no syntactic validation of the MM:SS line format), and
fails with `emptyLabelResponse` exactly on a null or empty response. -/
theorem parseOracleResponse_spec (s : String) (h : s ≠ "") :
    parseOracleResponse (some s) = Except.ok s ∧
    parseOracleResponse none = Except.error LabelError.emptyLabelResponse ∧
    parseOracleResponse (some "") = Except.error LabelError.emptyLabelResponse := by
  refine ⟨?_, rfl, rfl⟩
  simp [parseOracleResponse, h]

/-- C7 witness: a response that is not even in MM:SS format passes through
verbatim. -/
theorem parseOracleResponse_spec_witness :
    parseOracleResponse (some "arbitrary prose") = Except.ok "arbitrary prose" :=
  (parseOracleResponse_spec "arbitrary prose" (by decide)).1

/-- C8: for every non-negative number of seconds, `formatTime` produces the
two-digit-zero-padded `floor(s/60)`, a colon, and the two-digit-zero-padded
`floor(s) mod 60` (the spec-side rendering `formatTimeSpec`), with minutes
not wrapped to hours; in particular the three example values of the claim. -/
theorem formatTime_matches_spec (s : ℚ) (h : 0 ≤ s) :
    formatTime s = formatTimeSpec s ∧ formatTime 0 = "00:00" ∧
    formatTime 125 = "02:05" ∧ formatTime 3661 = "61:01" := by
  refine ⟨?_, by decide, by decide, by decide⟩
  have htr : jsTrunc (s / 60) = ⌊s / 60⌋ := by
    unfold jsTrunc
    rw [if_pos (div_nonneg h (by norm_num))]
  have hmod : (⌊jsMod s 60⌋ : ℤ) = ⌊s⌋ % 60 := by
    unfold jsMod
    rw [htr]
    have h1 : (60 : ℚ) * (⌊s / 60⌋ : ℚ) = ((60 * ⌊s / 60⌋ : ℤ) : ℚ) := by push_cast; ring
    rw [h1, Int.floor_sub_int]
    have h2 : ((⌊s / 60⌋ : ℤ) : ℚ) ≤ s / 60 := Int.floor_le _
    have h3 : s / 60 < (⌊s / 60⌋ : ℤ) + 1 := Int.lt_floor_add_one _
    have h4 : (60 : ℚ) * (⌊s / 60⌋ : ℤ) ≤ s := by
      have := (le_div_iff₀ (show (0:ℚ) < 60 by norm_num)).mp h2
      linarith
    have h5 : s < 60 * ((⌊s / 60⌋ : ℤ) + 1) := by
      have := (div_lt_iff₀ (show (0:ℚ) < 60 by norm_num)).mp h3
      linarith
    have h6 : 60 * ⌊s / 60⌋ ≤ ⌊s⌋ := Int.le_floor.mpr (by push_cast; linarith)
    have h7 : ⌊s⌋ < 60 * ⌊s / 60⌋ + 60 := Int.floor_lt.mpr (by push_cast; linarith)
    omega
  simp only [formatTime, formatTimeSpec, hmod]

/-- C8 witness: the general form evaluated at 125 seconds. -/
theorem formatTime_matches_spec_witness :
    (0 : ℚ) ≤ 125 ∧ formatTime 125 = formatTimeSpec 125 :=
  ⟨by norm_num, (formatTime_matches_spec 125 (by norm_num)).1⟩

/-- The scan index stays below `cur` plus the number of remaining gaps. -/
theorem idxOfFirstMinAux_lt (l : List ℚ) :
    ∀ (b : ℚ) (bestIdx cur : Nat), bestIdx < cur →
      idxOfFirstMinAux l (some b) bestIdx cur < cur + l.length := by
  induction l with
  | nil =>
    intro b bestIdx cur h
    simpa [idxOfFirstMinAux] using h
  | cons x xs ih =>
    intro b bestIdx cur h
    by_cases hx : x < b
    · have h2 := ih x cur (cur + 1) (Nat.lt_succ_self cur)
      simp only [idxOfFirstMinAux, if_pos hx, List.length_cons]
      omega
    · have h2 := ih b bestIdx (cur + 1) (by omega)
      simp only [idxOfFirstMinAux, if_neg hx, List.length_cons]
      omega

/-- There is one gap fewer than there are groups. -/
theorem gapsOf_length (gs : List TopicGroup) : (gapsOf gs).length = gs.length - 1 := by
  induction gs with
  | nil => simp [gapsOf]
  | cons a rest ih =>
    cases rest with
    | nil => simp [gapsOf]
    | cons b rest2 =>
      simp only [gapsOf, List.length_cons] at *
      omega

/-- With at least two groups, the selected merge index has a successor. -/
theorem findMergeIndex_lt (gs : List TopicGroup) (h2 : 2 ≤ gs.length) :
    findMergeIndex gs + 1 < gs.length := by
  have hg : (gapsOf gs).length = gs.length - 1 := gapsOf_length gs
  obtain ⟨x, xs, hxe⟩ : ∃ x xs, gapsOf gs = x :: xs := by
    cases hgap : gapsOf gs with
    | nil => rw [hgap] at hg; simp at hg; omega
    | cons x xs => exact ⟨x, xs, rfl⟩
  unfold findMergeIndex
  rw [hxe]
  simp only [idxOfFirstMinAux, Nat.zero_add]
  have hlt := idxOfFirstMinAux_lt xs x 0 1 Nat.one_pos
  have hxl : (x :: xs).length = gs.length - 1 := by rw [← hxe]; exact hg
  simp only [List.length_cons] at hxl
  omega

/-- A merge at a valid index removes exactly one group. -/
theorem mergeAt_length (gs : List TopicGroup) (i : Nat) (h : i + 1 < gs.length) :
    (mergeAt gs i).length + 1 = gs.length := by
  have hi : i < gs.length := by omega
  have ha : gs[i]? = some gs[i] := List.getElem?_eq_getElem hi
  have hb : gs[i + 1]? = some gs[i + 1] := List.getElem?_eq_getElem h
  simp only [mergeAt, ha, hb]
  simp only [List.length_append, List.length_take, List.length_drop, List.length_cons,
    List.length_nil]
  omega

/-- Fuel-indexed invariant of the Reducer loop: with enough fuel the result
is within the bound and never empties. -/
theorem reduceLoop_bounds (fuel : Nat) :
    ∀ (gs : List TopicGroup) (maxChapters : Nat), 1 ≤ maxChapters →
      gs.length ≤ maxChapters + fuel →
      (reduceLoop fuel gs maxChapters).length ≤ maxChapters ∧
      (gs ≠ [] → reduceLoop fuel gs maxChapters ≠ []) := by
  induction fuel with
  | zero =>
    intro gs maxChapters hmx hlen
    exact ⟨by simpa [reduceLoop] using hlen, fun h => by simpa [reduceLoop] using h⟩
  | succ fuel ih =>
    intro gs maxChapters hmx hlen
    by_cases hc : maxChapters < gs.length ∧ 2 ≤ gs.length
    · have hi1 : findMergeIndex gs + 1 < gs.length := findMergeIndex_lt gs hc.2
      have hml : (mergeAt gs (findMergeIndex gs)).length + 1 = gs.length :=
        mergeAt_length gs _ hi1
      have hrec := ih (mergeAt gs (findMergeIndex gs)) maxChapters hmx (by omega)
      refine ⟨?_, fun _ => ?_⟩
      · simpa [reduceLoop, hc] using hrec.1
      · have hne : mergeAt gs (findMergeIndex gs) ≠ [] :=
          List.length_pos.mp (by omega)
        simpa [reduceLoop, hc] using hrec.2 hne
    · have hlen2 : gs.length ≤ maxChapters := by
        rcases Decidable.not_and_iff_or_not.mp hc with h | h <;> omega
      exact ⟨by simpa [reduceLoop, hc] using hlen2, fun hne => by
        simpa [reduceLoop, hc] using hne⟩

/-- C3: for every group list and bound `max ≥ 1`, the Reducer's output has
at most `max` groups, is non-empty whenever the input was, and each loop
iteration removes exactly one group (hence termination after at most
`length` steps). -/
theorem reduceGroups_length_bounds (gs : List TopicGroup) (maxChapters : Nat)
    (hmax : 1 ≤ maxChapters) :
    (reduceGroups gs maxChapters).length ≤ maxChapters ∧
    (gs ≠ [] → reduceGroups gs maxChapters ≠ []) ∧
    (maxChapters < gs.length →
      (mergeAt gs (findMergeIndex gs)).length + 1 = gs.length) := by
  have h := reduceLoop_bounds gs.length gs maxChapters hmax (by omega)
  exact ⟨h.1, h.2, fun hlt => mergeAt_length gs _ (findMergeIndex_lt gs (by omega))⟩

/-- C3 witness: three groups reduced under the bound 1. -/
theorem reduceGroups_length_bounds_witness :
    (1 : Nat) ≤ 1 ∧ (reduceGroups c3Groups 1).length ≤ 1 :=
  ⟨by decide, (reduceGroups_length_bounds c3Groups 1 (by decide)).1⟩

/-- Accumulator invariant of the merge-index scan: the final index is in
range, its gap is a global minimum, and it is strictly smaller than every
earlier gap (first minimum wins). -/
theorem idxOfFirstMinAux_min (g : List ℚ) :
    ∀ (l : List ℚ) (b : ℚ) (bestIdx cur : Nat),
      (∀ k, l[k]? = g[cur + k]?) →
      bestIdx < cur → bestIdx < g.length → b = g.getD bestIdx 0 →
      (∀ j, j < cur → b ≤ g.getD j 0) →
      (∀ j, j < bestIdx → b < g.getD j 0) →
      idxOfFirstMinAux l (some b) bestIdx cur < g.length ∧
      (∀ j, j < g.length →
        g.getD (idxOfFirstMinAux l (some b) bestIdx cur) 0 ≤ g.getD j 0) ∧
      (∀ j, j < idxOfFirstMinAux l (some b) bestIdx cur →
        g.getD (idxOfFirstMinAux l (some b) bestIdx cur) 0 < g.getD j 0) := by
  intro l
  induction l with
  | nil =>
    intro b bestIdx cur hl hbc hbl hb hle hlt
    have hcur : g.length ≤ cur := by
      have h0 := (hl 0).symm
      rw [Nat.add_zero] at h0
      simp only [List.getElem?_nil] at h0
      exact List.getElem?_eq_none_iff.mp h0
    simp only [idxOfFirstMinAux]
    refine ⟨hbl, fun j hj => ?_, fun j hj => ?_⟩
    · rw [← hb]; exact hle j (lt_of_lt_of_le hj hcur)
    · rw [← hb]; exact hlt j hj
  | cons x xs ih =>
    intro b bestIdx cur hl hbc hbl hb hle hlt
    have hx : g[cur]? = some x := by
      have h0 := hl 0
      rw [Nat.add_zero] at h0
      simpa using h0.symm
    have hcur : cur < g.length := by
      by_contra hcon
      rw [List.getElem?_eq_none (by omega)] at hx
      simp at hx
    have hxd : g.getD cur 0 = x := by
      rw [List.getD_eq_getElem?_getD, hx]
      rfl
    have hxs : ∀ k, xs[k]? = g[(cur + 1) + k]? := by
      intro k
      have hk := hl (k + 1)
      have he : cur + (k + 1) = (cur + 1) + k := by omega
      rw [he] at hk
      simpa using hk
    simp only [idxOfFirstMinAux]
    by_cases hcmp : x < b
    · rw [if_pos hcmp]
      apply ih x cur (cur + 1) hxs (Nat.lt_succ_self cur) hcur hxd.symm
      · intro j hj
        rcases Nat.lt_succ_iff_lt_or_eq.mp hj with hj2 | hj2
        · exact le_trans (le_of_lt hcmp) (hle j hj2)
        · rw [hj2, hxd]
      · intro j hj
        exact lt_of_lt_of_le hcmp (hle j hj)
    · rw [if_neg hcmp]
      apply ih b bestIdx (cur + 1) hxs (by omega) hbl hb
      · intro j hj
        rcases Nat.lt_succ_iff_lt_or_eq.mp hj with hj2 | hj2
        · exact hle j hj2
        · rw [hj2, hxd]
          exact not_lt.mp hcmp
      · exact hlt

/-- The selected merge index is in gap range, carries a minimal gap, and is
the first index achieving that minimum. -/
theorem findMergeIndex_min (gs : List TopicGroup) (h2 : 2 ≤ gs.length) :
    findMergeIndex gs < (gapsOf gs).length ∧
    (∀ j, j < (gapsOf gs).length →
      (gapsOf gs).getD (findMergeIndex gs) 0 ≤ (gapsOf gs).getD j 0) ∧
    (∀ j, j < findMergeIndex gs →
      (gapsOf gs).getD (findMergeIndex gs) 0 < (gapsOf gs).getD j 0) := by
  have hg : (gapsOf gs).length = gs.length - 1 := gapsOf_length gs
  obtain ⟨x, xs, hxe⟩ : ∃ x xs, gapsOf gs = x :: xs := by
    cases hgap : gapsOf gs with
    | nil => rw [hgap] at hg; simp at hg; omega
    | cons x xs => exact ⟨x, xs, rfl⟩
  unfold findMergeIndex
  rw [hxe]
  simp only [idxOfFirstMinAux]
  apply idxOfFirstMinAux_min (x :: xs) xs x 0 1
  · intro k
    have he : 1 + k = k + 1 := by omega
    rw [he]
    simp
  · exact Nat.one_pos
  · simp
  · simp
  · intro j hj
    have hj0 : j = 0 := by omega
    subst hj0
    simp
  · intro j hj
    exact absurd hj (Nat.not_lt_zero j)

/-- Gaps are adjacent start-time differences. -/
theorem gapsOf_getD (gs : List TopicGroup) :
    ∀ j, j + 1 < gs.length →
      (gapsOf gs).getD j 0 =
        (gs.getD (j + 1) defaultGroup).start - (gs.getD j defaultGroup).start := by
  induction gs with
  | nil => intro j hj; simp at hj
  | cons a rest ih =>
    cases rest with
    | nil => intro j hj; simp at hj
    | cons b rest2 =>
      intro j hj
      cases j with
      | zero => simp [gapsOf]
      | succ j2 =>
        simp only [gapsOf, List.getD_cons_succ]
        exact ih j2 (by simpa using hj)

/-- C4: one Reducer iteration picks the adjacent pair with the smallest
start-time gap (scanning from 0, first minimum wins), merges group `i+1`
into group `i` by appending texts and segments in order while keeping the
earlier group's `start`, and splices group `i+1` out — so the remaining
groups keep their relative order. -/
theorem mergeStep_selects_min_gap (gs : List TopicGroup) (h2 : 2 ≤ gs.length) :
    findMergeIndex gs + 1 < gs.length ∧
    (∀ j, j + 1 < gs.length →
      (gs.getD (findMergeIndex gs + 1) defaultGroup).start -
          (gs.getD (findMergeIndex gs) defaultGroup).start ≤
        (gs.getD (j + 1) defaultGroup).start - (gs.getD j defaultGroup).start) ∧
    (∀ j, j < findMergeIndex gs →
      (gs.getD (findMergeIndex gs + 1) defaultGroup).start -
          (gs.getD (findMergeIndex gs) defaultGroup).start <
        (gs.getD (j + 1) defaultGroup).start - (gs.getD j defaultGroup).start) ∧
    (∀ a b, gs[findMergeIndex gs]? = some a → gs[findMergeIndex gs + 1]? = some b →
      mergeAt gs (findMergeIndex gs) =
        gs.take (findMergeIndex gs) ++
          [{ start := a.start, texts := a.texts ++ b.texts,
             segments := a.segments ++ b.segments }] ++
          gs.drop (findMergeIndex gs + 2)) := by
  obtain ⟨hlt, hmin, hstrict⟩ := findMergeIndex_min gs h2
  have hg : (gapsOf gs).length = gs.length - 1 := gapsOf_length gs
  have hidx : findMergeIndex gs + 1 < gs.length := by omega
  refine ⟨hidx, fun j hj => ?_, fun j hj => ?_, fun a b ha hb => ?_⟩
  · rw [← gapsOf_getD gs (findMergeIndex gs) hidx, ← gapsOf_getD gs j hj]
    exact hmin j (by omega)
  · have hjlen : j + 1 < gs.length := by omega
    rw [← gapsOf_getD gs (findMergeIndex gs) hidx, ← gapsOf_getD gs j hjlen]
    exact hstrict j hj
  · simp only [mergeAt, ha, hb]

/-- C4 witness: on three groups with gaps 10 and 2, the pair (1,2) merges,
keeping the earlier start 10 and concatenating in order. -/
theorem mergeStep_selects_min_gap_witness :
    findMergeIndex c4Groups + 1 < c4Groups.length ∧
    mergeAt c4Groups (findMergeIndex c4Groups) =
      c4Groups.take (findMergeIndex c4Groups) ++
        [{ start := 10, texts := ["b", "c"], segments := [] }] ++
        c4Groups.drop (findMergeIndex c4Groups + 2) :=
  ⟨(mergeStep_selects_min_gap c4Groups (by decide)).1,
   (mergeStep_selects_min_gap c4Groups (by decide)).2.2.2
     { start := 10, texts := ["b"], segments := [] }
     { start := 12, texts := ["c"], segments := [] } (by decide) (by decide)⟩

/-- C6: on a jobId with no record, `storeJobResult` and `markJobAsError`
fail with `jobNotFound` and leave the map unchanged, while `updateJobStatus`
never fails: it synthesizes the default record (status waiting, progress 0,
createdAt now), shallow-merges the partial over it, stamps `updatedAt`,
stores and returns the merged record. -/
theorem jobStore_unknown_jobId (m : JobsMap) (jobId text errMsg now : String)
    (p : PartialJobStatus) (h : m jobId = none) :
    (storeJobResult m jobId text now).1 =
        Except.error (JobStoreError.jobNotFound jobId) ∧
    (storeJobResult m jobId text now).2 = m ∧
    (markJobAsError m jobId errMsg now).1 =
        Except.error (JobStoreError.jobNotFound jobId) ∧
    (markJobAsError m jobId errMsg now).2 = m ∧
    (updateJobStatus m jobId p now).1 =
        { mergePatch (defaultJobStatus jobId now) p with updatedAt := some now } ∧
    (updateJobStatus m jobId p now).2 jobId = some ((updateJobStatus m jobId p now).1) := by
  refine ⟨?_, ?_, ?_, ?_, ?_, ?_⟩ <;>
    simp [storeJobResult, markJobAsError, updateJobStatus, JobsMap.set, h]

/-- C6 witness: the three behaviours on an empty store, at the id "job-x". -/
theorem jobStore_unknown_jobId_witness :
    (storeJobResult emptyJobsMap "job-x" "chapters" "t1").1 =
        Except.error (JobStoreError.jobNotFound "job-x") ∧
    (markJobAsError emptyJobsMap "job-x" "boom" "t1").2 = emptyJobsMap ∧
    (updateJobStatus emptyJobsMap "job-x" c6Patch "t1").1 =
        { mergePatch (defaultJobStatus "job-x" "t1") c6Patch with updatedAt := some "t1" } := by
  have h := jobStore_unknown_jobId emptyJobsMap "job-x" "chapters" "boom" "t1" c6Patch rfl
  exact ⟨h.1, h.2.2.2.1, h.2.2.2.2.1⟩

/-- C10: on an existing record, `markJobAsError` changes only `status`,
`error` and `completedAt`; `progress`, `result`, `createdAt`, `updatedAt`
and `jobId` keep their previous values in the stored and returned record. -/
theorem markJobAsError_frame (m : JobsMap) (jobId errMsg now : String)
    (st : JobStatus) (h : m jobId = some st) :
    ((markJobAsError m jobId errMsg now).2 jobId).map JobStatus.progress =
        some st.progress ∧
    ((markJobAsError m jobId errMsg now).2 jobId).map JobStatus.result = some st.result ∧
    ((markJobAsError m jobId errMsg now).2 jobId).map JobStatus.createdAt =
        some st.createdAt ∧
    ((markJobAsError m jobId errMsg now).2 jobId).map JobStatus.updatedAt =
        some st.updatedAt ∧
    ((markJobAsError m jobId errMsg now).2 jobId).map JobStatus.jobId = some st.jobId ∧
    ((markJobAsError m jobId errMsg now).2 jobId).map JobStatus.status =
        some ProcessStatus.error ∧
    ((markJobAsError m jobId errMsg now).2 jobId).map JobStatus.error =
        some (some errMsg) ∧
    ((markJobAsError m jobId errMsg now).2 jobId).map JobStatus.completedAt =
        some (some now) ∧
    (markJobAsError m jobId errMsg now).1 =
      Except.ok { st with status := ProcessStatus.error, error := some errMsg,
                          completedAt := some now } := by
  refine ⟨?_, ?_, ?_, ?_, ?_, ?_, ?_, ?_, ?_⟩ <;>
    simp [markJobAsError, JobsMap.set, h]

/-- C10 witness: the frame property on a concrete store whose record has
progress 55 and updatedAt "t1". -/
theorem markJobAsError_frame_witness :
    ((markJobAsError c10Map "job-a" "boom" "t2").2 "job-a").map JobStatus.progress =
        some 55 ∧
    ((markJobAsError c10Map "job-a" "boom" "t2").2 "job-a").map JobStatus.updatedAt =
        some (some "t1") ∧
    ((markJobAsError c10Map "job-a" "boom" "t2").2 "job-a").map JobStatus.status =
        some ProcessStatus.error := by
  have h := markJobAsError_frame c10Map "job-a" "boom" "t2" c10Record (by decide)
  exact ⟨h.1, h.2.2.2.1, h.2.2.2.2.2.1⟩

/-- C9: eviction keeps a `.json` file iff its age `now - mtimeMs` is at most
24 hours (strictly older files are removed, nothing else is), and removes no
non-`.json` file; every survivor was already present. -/
theorem cleanupOldJobs_spec (now : ℤ) (files : List StoredFile) (f : StoredFile)
    (hf : f ∈ files) :
    (strEndsWith f.name ".json" = true →
      (f ∈ cleanupOldJobs now files ↔ now - f.mtimeMs ≤ oneDayMs)) ∧
    (strEndsWith f.name ".json" = false → f ∈ cleanupOldJobs now files) ∧
    (f ∈ cleanupOldJobs now files → f ∈ files) := by
  unfold cleanupOldJobs
  refine ⟨fun hjson => ?_, fun hjson => ?_, fun hmem => (List.mem_filter.mp hmem).1⟩
  · rw [List.mem_filter]
    constructor
    · rintro ⟨-, hp⟩
      rw [if_pos hjson] at hp
      exact of_decide_eq_true hp
    · intro hle
      refine ⟨hf, ?_⟩
      rw [if_pos hjson]
      exact decide_eq_true hle
  · rw [List.mem_filter]
    refine ⟨hf, ?_⟩
    rw [if_neg]
    simp [hjson]

/-- C9 witness: after eviction at 25 hours past epoch, the file modified at
epoch (25 h old) is gone and the file modified one hour before `c9Now`
remains, so `getAllJobs` lists only the younger job. -/
theorem cleanupOldJobs_spec_witness :
    ((c9FileOld ∈ cleanupOldJobs c9Now c9Files) ↔ c9Now - c9FileOld.mtimeMs ≤ oneDayMs) ∧
    ((c9FileNew ∈ cleanupOldJobs c9Now c9Files) ↔ c9Now - c9FileNew.mtimeMs ≤ oneDayMs) ∧
    getAllJobs (cleanupOldJobs c9Now c9Files) = [c9FileNew.job] := by
  refine ⟨(cleanupOldJobs_spec c9Now c9Files c9FileOld (by decide)).1 (by decide),
          (cleanupOldJobs_spec c9Now c9Files c9FileNew (by decide)).1 (by decide),
          by decide⟩

end

end YT
